import Mathlib

/-!
# FragMapper core: shallow embedding and verification

This file embeds the core logic of the FragMapper repository
(`src/fragmapper`) in Lean and proves properties of it.

Modelling conventions:
* Python strings are `List Char` (`Str`). `str.lower` is modelled by the
  ASCII case mapping `Char.toLower` applied characterwise.
* Python regular expressions are embedded by purpose-built matchers that
  mirror `re.search` / `re.sub` semantics (leftmost match, alternatives
  tried in order, `\b` as a word/non-word transition, greedy `\s+`).
* Python machine floats are modelled as exact rationals; the sizes parsed
  by the normalizer are represented as a numerator/scale pair of naturals,
  so `int(...)` truncation toward zero becomes natural-number division.
* `pydantic` model construction, which validates field constraints and
  raises on violation, is modelled by smart constructors returning
  `Option`; a raised exception is modelled by `Except.error`.
-/

namespace FragMapper

/-- Python strings, modelled as lists of characters. -/
abbrev Str := List Char

/-- Embed a Lean string literal as a `Str`. -/
def wd (s : String) : Str := s.toList

/-- The apostrophe character (used by the `men'?s?` / `women'?s?` regexes). -/
def apos : Char := Char.ofNat 39

/-- Python regex `\w` (ASCII model): letters, digits and underscore. -/
def isWordChar (c : Char) : Bool := c.isAlphanum || c == '_'

/-- Python regex `\s` and `str.strip` whitespace (ASCII model):
space, tab, newline, carriage return, vertical tab, form feed. -/
def isSpaceChar (c : Char) : Bool :=
  c == ' ' || c == '\t' || c == '\n' || c == '\r' || c == '\x0b' || c == '\x0c'

/-- Word-character test on an optional character; the ends of the string
count as non-word positions. -/
def isWordOpt : Option Char → Bool
  | none => false
  | some c => isWordChar c

/-- Python regex `\b`: there is a word boundary between two adjacent
positions iff exactly one of the neighbouring characters is a word
character. -/
def isBoundary (l r : Option Char) : Bool := isWordOpt l != isWordOpt r

/-- Does `s` start with `pat`? (Python `str.startswith`, also the literal
step of regex matching.) -/
def startsWith : Str → Str → Bool
  | _, [] => true
  | [], _ :: _ => false
  | c :: cs, d :: ds => c == d && startsWith cs ds

/-- Python substring containment `pat in s`. -/
def containsSub : Str → Str → Bool
  | [], pat => startsWith [] pat
  | c :: rest, pat => startsWith (c :: rest) pat || containsSub rest pat

/-- Match one regex alternative — a nonempty sequence of literal words
joined by `\s+` — at the head of `s`; returns the number of characters
consumed.  `\s+` is taken greedily, which is faithful because every
following word starts with a non-whitespace character. -/
def matchWords : Str → List Str → Option Nat
  | _, [] => none
  | s, [w] => if startsWith s w then some w.length else none
  | s, w :: ws =>
    if startsWith s w then
      let rest := s.drop w.length
      let k := (rest.takeWhile isSpaceChar).length
      if k == 0 then none
      else (matchWords (rest.drop k) ws).map (fun n => w.length + k + n)
    else none

/-- Try to match `\b(alt₁|alt₂|…)\b` at the current position of `s`,
where `prev` is the character just before the position.  Alternatives are
tried in order, as Python's `re` does.  Returns the consumed length. -/
def matchAltsAt (prev : Option Char) (s : Str) : List (List Str) → Option Nat
  | [] => none
  | alt :: alts =>
    match matchWords s alt with
    | some n =>
      if isBoundary prev s.head? && isBoundary (s.take n).getLast? (s.drop n).head? then
        some n
      else matchAltsAt prev s alts
    | none => matchAltsAt prev s alts

/-- Worker for `subAlts`: `re.sub(pattern, "", s)` scanning left to right.
`prev` is the character before the current position in the original
string (Python's `\b` looks at the original string).  `skip > 0` means we
are inside an already-matched span and still have `skip` characters to
drop before matching may resume. -/
def subAltsGo (alts : List (List Str)) : Option Char → Nat → Str → Str
  | _, _, [] => []
  | _, Nat.succ k, c :: rest => subAltsGo alts (some c) k rest
  | prev, 0, c :: rest =>
    match matchAltsAt prev (c :: rest) alts with
    | some (Nat.succ n) => subAltsGo alts (some c) n rest
    | _ => c :: subAltsGo alts (some c) 0 rest

/-- Python `re.sub(r"\b(alt₁|alt₂|…)\b", "", s)`. -/
def subAlts (alts : List (List Str)) (s : Str) : Str := subAltsGo alts none 0 s

/-- Python `re.search(r"\b(alt₁|alt₂|…)\b", s) is not None`. -/
def searchAlts (alts : List (List Str)) : Option Char → Str → Bool
  | _, [] => false
  | prev, c :: rest =>
    (matchAltsAt prev (c :: rest) alts).isSome || searchAlts alts (some c) rest

/-- `TextNormalizer.NOISE_TERMS`: the noise-term regexes, in source
order.  Each regex is a `\b(...)\b` group of alternatives; each
alternative is a sequence of literal words joined by `\s+`. -/
def NOISE_TERMS : List (List (List Str)) :=
  [ [[wd "spray"]],
    [[wd "authentic"]],
    [[wd "100%"]],
    [[wd "genuine"]],
    [[wd "original"]],
    [[wd "new", wd "in", wd "box"], [wd "nib"]],
    [[wd "sealed"]],
    [[wd "brand", wd "new"]],
    [[wd "free", wd "shipping"]] ]

/-- The noise-removal loop of `TextNormalizer.normalize`: apply
`re.sub(pattern, "", ·)` for each noise pattern in order. -/
def removeNoise (s : Str) : Str :=
  NOISE_TERMS.foldl (fun acc pat => subAlts pat acc) s

/-- The character class `[\w\s\-\./]` kept by `normalize`. -/
def isAllowedChar (c : Char) : Bool :=
  isWordChar c || isSpaceChar c || c == '-' || c == '.' || c == '/'

/-- `re.sub(r"[^\w\s\-\./]", " ", s)`: replace every disallowed character
by a single space. -/
def replaceSpecial (s : Str) : Str :=
  s.map (fun c => if isAllowedChar c then c else ' ')

/-- Worker for `re.sub(r"\s+", " ", s)`: the flag records whether the
previous character was whitespace (in which case further whitespace is
absorbed into the already-emitted space). -/
def squeezeWs : Bool → Str → Str
  | _, [] => []
  | prevWs, c :: rest =>
    if isSpaceChar c then
      if prevWs then squeezeWs true rest else ' ' :: squeezeWs true rest
    else c :: squeezeWs false rest

/-- Drop the longest suffix of whitespace. -/
def dropEndWhile (p : Char → Bool) (s : Str) : Str :=
  (s.reverse.dropWhile p).reverse

/-- Python `str.strip()`. -/
def strip (s : Str) : Str :=
  dropEndWhile isSpaceChar (s.dropWhile isSpaceChar)

/-- `re.sub(r"\s+", " ", s).strip()`. -/
def collapseWs (s : Str) : Str := strip (squeezeWs false s)

/-- `TextNormalizer.normalize`: lowercase, remove noise terms, replace
special characters by spaces, collapse whitespace and trim. -/
def normalize (text : Str) : Str :=
  collapseWs (replaceSpecial (removeNoise (text.map Char.toLower)))

/-- `TextNormalizer.DEFAULT_EXCLUSIONS` (already lowercase, as
`_load_exclusions` stores them). -/
def DEFAULT_EXCLUSIONS : List Str :=
  [wd "decant", wd "sample", wd "empty bottle", wd "box only", wd "tester",
   wd "travel size", wd "mini", wd "vial", wd "atomizer", wd "refill"]

/-- `TextNormalizer.find_exclusions`: scan the (lowercased) raw input for
each configured exclusion term, in the exclusion list's order, collecting
the terms found. -/
def find_exclusions (exclusions : List Str) (text : Str) : List Str :=
  let textLower := text.map Char.toLower
  exclusions.foldl (fun found e => if containsSub textLower e then found ++ [e] else found) []

/-- Numeric value of a digit string (Python `int` on digits). -/
def digitsToNat (ds : Str) : Nat :=
  ds.foldl (fun a c => a * 10 + (c.toNat - 48)) 0

/-- Parse the regex group `(\d+(?:\.\d+)?)` at the head of `s`.  The
matched number is represented exactly as `numerator / scale` with
`scale` a power of ten; also returns the remaining input. -/
def scanNumber (s : Str) : Option (Nat × Nat × Str) :=
  let ds := s.takeWhile Char.isDigit
  if ds.isEmpty then none
  else
    let rest := s.drop ds.length
    match rest with
    | '.' :: r2 =>
      let fs := r2.takeWhile Char.isDigit
      if fs.isEmpty then some (digitsToNat ds, 1, rest)
      else some (digitsToNat (ds ++ fs), 10 ^ fs.length, r2.drop fs.length)
    | _ => some (digitsToNat ds, 1, rest)

/-- The unit part `(ml|milliliter)` of the milliliter size pattern. -/
def isMlUnit (s : Str) : Bool :=
  startsWith s (wd "ml") || startsWith s (wd "milliliter")

/-- The unit part `(oz|ounce|fl\.?\s*oz)` of the ounce size pattern,
alternatives tried in order. -/
def isOzUnit (s : Str) : Bool :=
  startsWith s (wd "oz") || startsWith s (wd "ounce") ||
    (startsWith s (wd "fl") &&
      (let r := s.drop 2
       let r2 := match r with
         | '.' :: t => t
         | _ => r
       startsWith (r2.dropWhile isSpaceChar) (wd "oz")))

/-- `re.search(r"(\d+(?:\.\d+)?)\s*<unit>", s)`: leftmost match of a
number followed by optional whitespace and a unit.  Returns the number as
a numerator/scale pair. -/
def searchSize (unit : Str → Bool) : Str → Option (Nat × Nat)
  | [] => none
  | c :: rest =>
    match scanNumber (c :: rest) with
    | some (num, scale, r) =>
      if unit (r.dropWhile isSpaceChar) then some (num, scale)
      else searchSize unit rest
    | none => searchSize unit rest

/-- `TextNormalizer._extract_size_ml`: try the milliliter pattern first;
only if it fails, try the ounce pattern and convert with the fixed factor
29.5735 ml/oz.  Python's `int(...)` truncation toward zero of these
non-negative values is natural-number division (floats are modelled as
exact rationals). -/
def pyExtractSizeMl (text : Str) : Option Nat :=
  let textLower := text.map Char.toLower
  match searchSize isMlUnit textLower with
  | some (num, scale) => some (num / scale)
  | none =>
    match searchSize isOzUnit textLower with
    | some (num, scale) => some (num * 295735 / (scale * 10000))
    | none => none

/-- Alternatives of the EDP concentration regex
`\b(edp|eau\s+de\s+parfum)\b`. -/
def edpAlts : List (List Str) := [[wd "edp"], [wd "eau", wd "de", wd "parfum"]]

/-- Alternatives of the EDT concentration regex
`\b(edt|eau\s+de\s+toilette)\b`. -/
def edtAlts : List (List Str) := [[wd "edt"], [wd "eau", wd "de", wd "toilette"]]

/-- Alternatives of the EDC concentration regex
`\b(edc|eau\s+de\s+cologne|cologne)\b`. -/
def edcAlts : List (List Str) :=
  [[wd "edc"], [wd "eau", wd "de", wd "cologne"], [wd "cologne"]]

/-- Alternatives of the Parfum concentration regex
`\b(parfum|extrait|extrait\s+de\s+parfum|pure\s+parfum)\b`. -/
def parfumAlts : List (List Str) :=
  [[wd "parfum"], [wd "extrait"], [wd "extrait", wd "de", wd "parfum"],
   [wd "pure", wd "parfum"]]

/-- `TextNormalizer.CONCENTRATION_PATTERNS`, in the source's insertion
order (Python dicts iterate in insertion order). -/
def CONCENTRATION_PATTERNS : List ((List (List Str)) × Str) :=
  [(edpAlts, wd "EDP"), (edtAlts, wd "EDT"), (edcAlts, wd "EDC"),
   (parfumAlts, wd "Parfum")]

/-- The concentration-extraction loop of `extract_components`: the first
pattern that matches the lowercased text wins. -/
def extractConcentration (textLower : Str) : Option Str :=
  (CONCENTRATION_PATTERNS.find? (fun p => searchAlts p.1 none textLower)).map (·.2)

/-- Try to match `\b(19\d{2}|20\d{2})\b` at the current position. -/
def matchYearAt (prev : Option Char) (s : Str) : Option Nat :=
  match s with
  | a :: b :: c :: d :: r =>
    if isBoundary prev (some a) && a.isDigit && b.isDigit && c.isDigit && d.isDigit
        && ((a == '1' && b == '9') || (a == '2' && b == '0'))
        && isBoundary (some d) r.head? then
      some (digitsToNat [a, b, c, d])
    else none
  | _ => none

/-- `re.search(r"\b(19\d{2}|20\d{2})\b", text)` — note: on the original
(not lowercased) text, as in the source. -/
def searchYear : Option Char → Str → Option Nat
  | _, [] => none
  | prev, c :: rest =>
    match matchYearAt prev (c :: rest) with
    | some y => some y
    | none => searchYear (some c) rest

/-- Alternatives of `\b(pour\s+homme|for\s+men|men'?s?)\b`, expanded in
the backtracking order of Python's `re` (each optional taken greedily
first). -/
def menAlts : List (List Str) :=
  [[wd "pour", wd "homme"], [wd "for", wd "men"],
   [wd "men" ++ [apos, 's']], [wd "men" ++ [apos]], [wd "mens"], [wd "men"]]

/-- Alternatives of `\b(pour\s+femme|for\s+women|women'?s?)\b`, expanded
in backtracking order. -/
def womenAlts : List (List Str) :=
  [[wd "pour", wd "femme"], [wd "for", wd "women"],
   [wd "women" ++ [apos, 's']], [wd "women" ++ [apos]], [wd "womens"], [wd "women"]]

/-- The target-audience extraction of `extract_components`: men-phrases,
then women-phrases, then "unisex"; first matching class wins. -/
def extractTarget (textLower : Str) : Option Str :=
  if searchAlts menAlts none textLower then some (wd "men")
  else if searchAlts womenAlts none textLower then some (wd "women")
  else if searchAlts [[wd "unisex"]] none textLower then some (wd "unisex")
  else none

/-- `TextNormalizer.FLANKER_TERMS`, in source order. -/
def FLANKER_TERMS : List Str :=
  [wd "intense", wd "absolu", wd "absolute", wd "elixir", wd "sport",
   wd "nuit", wd "noir", wd "extreme", wd "privee", wd "reserve",
   wd "limited edition", wd "collector", wd "oud", wd "exclusive"]

/-- Worker for Python `str.title`: uppercase a letter that starts a
letter-run, lowercase the other letters (ASCII model).  The flag records
whether the previous character was a letter. -/
def pyTitleGo : Bool → Str → Str
  | _, [] => []
  | prevAlpha, c :: rest =>
    (if c.isAlpha then (if prevAlpha then Char.toLower c else Char.toUpper c) else c)
      :: pyTitleGo c.isAlpha rest

/-- Python `str.title` (ASCII model). -/
def pyTitle (s : Str) : Str := pyTitleGo false s

/-- `InputSummary` — also used for the dictionary that
`TextNormalizer.extract_components` returns, since `ParfumoMapper`
copies that dictionary into `InputSummary` field by field. -/
structure InputSummary where
  brand : Option Str := none
  name : Option Str := none
  concentration : Option Str := none
  size_ml : Option Nat := none
  flanker : Option Str := none
  year : Option Nat := none
  target : Option Str := none
deriving DecidableEq, Repr

/-- `TextNormalizer.extract_components`.  Brand and name are never
extracted (left `None` in the source).  The size is kept only when
truthy (`if size_ml:` drops a parsed size of 0). -/
def extract_components (text : Str) : InputSummary :=
  let textLower := text.map Char.toLower
  { brand := none
    name := none
    concentration := extractConcentration textLower
    size_ml :=
      match pyExtractSizeMl text with
      | some n => if n == 0 then none else some n
      | none => none
    flanker :=
      (FLANKER_TERMS.find? (fun f => containsSub textLower (f.map Char.toLower))).map pyTitle
    year := searchYear none text
    target := extractTarget textLower }

/-- `Mode` (a string-valued enum in the source). -/
inductive Mode where
  | DESC_TO_PARFUMO_URL
  | DESC_TO_FRAGRANTICA_URL
  | PARFUMO_TO_FRAGRANTICA_URL
deriving DecidableEq, Repr

/-- The string value of a `Mode` member. -/
def Mode.value : Mode → Str
  | .DESC_TO_PARFUMO_URL => wd "DESC_TO_PARFUMO_URL"
  | .DESC_TO_FRAGRANTICA_URL => wd "DESC_TO_FRAGRANTICA_URL"
  | .PARFUMO_TO_FRAGRANTICA_URL => wd "PARFUMO_TO_FRAGRANTICA_URL"

/-- `MatchStatus`. -/
inductive MatchStatus where
  | MATCH
  | AMBIGUOUS
  | NO_MATCH
  | EXCLUDED
deriving DecidableEq, Repr

/-- `AlternateMatch` (confidence is a float in the source; floats are
modelled as exact rationals). -/
structure AlternateMatch where
  url : Str
  confidence : ℚ
  note : Option Str := none
deriving DecidableEq, Repr

/-- `DebugInfo`. -/
structure DebugInfo where
  excluded_terms_found : List Str := []
  normalized_title : Option Str := none
  search_queries_used : List Str := []
deriving DecidableEq, Repr

/-- `MapperOutput`, the output envelope. -/
structure MapperOutput where
  mode : Mode
  input_summary : InputSummary := {}
  status : MatchStatus
  primary_url : Option Str := none
  confidence : Option ℚ := none
  alternates : List AlternateMatch := []
  notes : List Str := []
  debug : DebugInfo := {}
deriving DecidableEq, Repr

/-- The pydantic range check `ge=0.0, le=1.0` on an optional confidence. -/
def confidenceOk : Option ℚ → Bool
  | none => true
  | some q => decide (0 ≤ q) && decide (q ≤ 1)

/-- pydantic construction of `AlternateMatch`: validates the confidence
range, returns `none` (raises) on violation. -/
def mkAlternateMatch (url : Str) (confidence : ℚ) (note : Option Str) :
    Option AlternateMatch :=
  if confidenceOk (some confidence) then some ⟨url, confidence, note⟩ else none

/-- pydantic construction of `MapperOutput`: validates the confidence
range (`ge=0.0, le=1.0`) and the alternates cap (`max_length=5`), returns
`none` (raises) on violation. -/
def mkMapperOutput (mode : Mode) (input_summary : InputSummary)
    (status : MatchStatus) (primary_url : Option Str) (confidence : Option ℚ)
    (alternates : List AlternateMatch) (notes : List Str) (debug : DebugInfo) :
    Option MapperOutput :=
  if confidenceOk confidence && decide (alternates.length ≤ 5) then
    some ⟨mode, input_summary, status, primary_url, confidence, alternates, notes, debug⟩
  else none

/-- `"\n".join` / `" ".join`: join with a separator character. -/
def joinSep (sep : Char) : List Str → Str
  | [] => []
  | [u] => u
  | u :: rest => u ++ sep :: joinSep sep rest

/-- Python truthiness of an `Optional[str]`: `None` and the empty string
are falsy. -/
def pyTruthyOptStr : Option Str → Bool
  | none => false
  | some s => !s.isEmpty

/-- `MapperOutput.to_simple_output`. -/
def to_simple_output (o : MapperOutput) : Str :=
  if o.status == .MATCH && pyTruthyOptStr o.primary_url then o.primary_url.getD []
  else if o.status == .AMBIGUOUS && !o.alternates.isEmpty then
    wd "AMBIGUOUS" ++ '\n' :: joinSep '\n' (o.alternates.map (·.url))
  else wd "NOT_FOUND"

/-- `[s]` for `Some s`, `[]` for `None` (building the query-part list). -/
def optToList : Option Str → List Str
  | some s => [s]
  | none => []

/-- `ParfumoMapper._search_and_match` (the non-excluded path): builds the
search query from brand/name/flanker/concentration, records it in the
debug info, and returns the placeholder NO_MATCH envelope. -/
def parfumoSearchAndMatch (input_summary : InputSummary) (debug : DebugInfo) :
    MapperOutput :=
  let queryParts := optToList input_summary.brand ++ optToList input_summary.name
      ++ optToList input_summary.flanker ++ optToList input_summary.concentration
  if queryParts.isEmpty then
    { mode := .DESC_TO_PARFUMO_URL, input_summary := input_summary,
      status := .NO_MATCH, debug := debug,
      notes := [wd "Insufficient information to search"] }
  else
    let searchQuery := wd "site:parfumo.com Perfumes " ++ joinSep ' ' queryParts
    { mode := .DESC_TO_PARFUMO_URL, input_summary := input_summary,
      status := .NO_MATCH,
      debug := { debug with
        search_queries_used := debug.search_queries_used ++ [searchQuery] },
      notes := [wd "Placeholder implementation - requires web search integration",
                wd "Would search: " ++ searchQuery] }

/-- `ParfumoMapper.execute`: extract clues, short-circuit to EXCLUDED when
`find_exclusions` found something, otherwise search and match.
`exclusions` is the normalizer's configured exclusion list. -/
def parfumoExecute (exclusions : List Str) (text : Str) : MapperOutput :=
  let normalized := normalize text
  let excluded := find_exclusions exclusions text
  let input_summary := extract_components text
  let debug : DebugInfo :=
    { excluded_terms_found := excluded, normalized_title := some normalized }
  if !excluded.isEmpty then
    { mode := .DESC_TO_PARFUMO_URL, input_summary := input_summary,
      status := .EXCLUDED, debug := debug,
      notes := [wd "Input contains exclusion terms"] }
  else parfumoSearchAndMatch input_summary debug

/-- `FragranticaMapper.execute` (a placeholder: returns NO_MATCH
unconditionally, with no exclusion check). -/
def fragranticaExecute (_text : Str) : MapperOutput :=
  { mode := .DESC_TO_FRAGRANTICA_URL, input_summary := {},
    status := .NO_MATCH, debug := {},
    notes := [wd "FragranticaMapper is not implemented yet"] }

/-- `CrosswalkMapper.execute` (a placeholder: returns NO_MATCH
unconditionally, with no exclusion check). -/
def crosswalkExecute (_text : Str) : MapperOutput :=
  { mode := .PARFUMO_TO_FRAGRANTICA_URL, input_summary := {},
    status := .NO_MATCH, debug := {},
    notes := [wd "CrosswalkMapper is not implemented yet"] }

/-- `FragMapperRouter._initialize_skills`: the skills dictionary, one
handler per mode (default configuration: `DEFAULT_EXCLUSIONS`). -/
def skills : List (Mode × (Str → MapperOutput)) :=
  [(.DESC_TO_PARFUMO_URL, parfumoExecute DEFAULT_EXCLUSIONS),
   (.DESC_TO_FRAGRANTICA_URL, fragranticaExecute),
   (.PARFUMO_TO_FRAGRANTICA_URL, crosswalkExecute)]

/-- `FragMapperRouter.route` on a `Mode` member: look up the handler in
the skills dictionary and delegate; if no handler is registered, return
the NO_MATCH envelope with an "Unsupported MODE" note. -/
def route (mode : Mode) (text : Str) : MapperOutput :=
  match (skills.find? (fun p => decide (p.1 = mode))).map (·.2) with
  | some h => h text
  | none => { mode := mode, status := .NO_MATCH, notes := [wd "Unsupported MODE"] }

/-- pydantic's coercion of a raw string to the `Mode` str-enum
(`Mode(value)`); fails for strings that are not a member's value. -/
def modeFromString (s : Str) : Option Mode :=
  if s = Mode.value .DESC_TO_PARFUMO_URL then some .DESC_TO_PARFUMO_URL
  else if s = Mode.value .DESC_TO_FRAGRANTICA_URL then some .DESC_TO_FRAGRANTICA_URL
  else if s = Mode.value .PARFUMO_TO_FRAGRANTICA_URL then some .PARFUMO_TO_FRAGRANTICA_URL
  else none

/-- `FragMapperRouter.route` as reachable dynamically, with the mode
passed as a raw string value.  The dictionary lookup succeeds exactly for
strings equal to a `Mode` member's value (str-enum hashing/equality).
In the unsupported branch the source constructs
`MapperOutput(mode=mode, ...)`; pydantic validates `mode` against the
`Mode` enum, so for any other string this construction raises a
`ValidationError` instead of returning an envelope — modelled as
`Except.error`. -/
def routeDyn (modeStr : Str) (text : Str) : Except Str MapperOutput :=
  match modeFromString modeStr with
  | some m => .ok (route m text)
  | none => .error (wd "ValidationError: mode is not a valid Mode member")

/-- The cross-field envelope invariant stated by the specification:
`primary_url` present iff MATCH, alternates only for AMBIGUOUS, and
EXCLUDED/NO_MATCH carry neither. -/
def envelopeInvariant (o : MapperOutput) : Prop :=
  (o.primary_url.isSome ↔ o.status = .MATCH) ∧
  (o.alternates ≠ [] → o.status = .AMBIGUOUS) ∧
  ((o.status = .EXCLUDED ∨ o.status = .NO_MATCH) →
    o.primary_url = none ∧ o.alternates = [])

/-- A constructible envelope with a primary URL but status NO_MATCH. -/
def badC1 : MapperOutput :=
  ⟨.DESC_TO_PARFUMO_URL, {}, .NO_MATCH, some (wd "https://example.com/x"),
   none, [], [], {}⟩

/-- A constructible envelope with status MATCH and an empty-string
primary URL. -/
def badC4 : MapperOutput :=
  ⟨.DESC_TO_PARFUMO_URL, {}, .MATCH, some [], none, [], [], {}⟩

/-- A MATCH envelope with a nonempty primary URL. -/
def matchEnvC4 : MapperOutput :=
  ⟨.DESC_TO_PARFUMO_URL, {}, .MATCH, some (wd "https://www.parfumo.com/p"),
   none, [], [], {}⟩

/-- Six individually valid alternates (one more than the schema cap). -/
def sixAlternates : List AlternateMatch :=
  [⟨wd "https://u1", 1, none⟩, ⟨wd "https://u2", 1, none⟩,
   ⟨wd "https://u3", 1, none⟩, ⟨wd "https://u4", 1, none⟩,
   ⟨wd "https://u5", 1, none⟩, ⟨wd "https://u6", 1, none⟩]

/-- No whitespace character at the head of the string. -/
def headNotWs (s : Str) : Prop :=
  ∀ c, s.head? = some c → isSpaceChar c = false

/-- No whitespace character at the end of the string. -/
def lastNotWs (s : Str) : Prop :=
  ∀ c, s.getLast? = some c → isSpaceChar c = false

/-- No two adjacent whitespace characters. -/
def noWsRun (s : Str) : Prop :=
  List.Chain' (fun a b => isSpaceChar a = false ∨ isSpaceChar b = false) s

/-! ## Helper lemmas -/

/-- `startsWith` decides list-prefix. -/
theorem startsWith_iff : ∀ (s pat : Str), startsWith s pat = true ↔ pat <+: s := by
  intro s pat
  induction pat generalizing s with
  | nil =>
    simp only [startsWith]
    exact ⟨fun _ => ⟨s, rfl⟩, fun _ => trivial⟩
  | cons d ds ih =>
    cases s with
    | nil =>
      simp only [startsWith]
      constructor
      · intro h; cases h
      · rintro ⟨t, ht⟩; cases ht
    | cons c cs =>
      simp only [startsWith, Bool.and_eq_true, beq_iff_eq]
      constructor
      · rintro ⟨hcd, hrest⟩
        obtain ⟨t, ht⟩ := (ih cs).mp hrest
        exact ⟨t, by simp [hcd, ht]⟩
      · rintro ⟨t, ht⟩
        injection ht with h1 h2
        exact ⟨h1.symm, (ih cs).mpr ⟨t, h2⟩⟩

/-- `containsSub` decides contiguous-substring containment. -/
theorem containsSub_iff : ∀ (s pat : Str), containsSub s pat = true ↔ pat <:+: s := by
  intro s pat
  induction s with
  | nil =>
    cases pat with
    | nil =>
      simp only [containsSub, startsWith]
      exact ⟨fun _ => ⟨[], [], rfl⟩, fun _ => trivial⟩
    | cons c cs =>
      simp only [containsSub, startsWith]
      constructor
      · intro h; cases h
      · rintro ⟨a, b, hab⟩
        exact absurd hab (by simp)
  | cons c rest ih =>
    simp only [containsSub, Bool.or_eq_true, startsWith_iff, ih]
    exact List.infix_cons_iff.symm

/-- The accumulating fold of `find_exclusions` is a filter. -/
theorem foldl_collect_eq_filter (p : Str → Bool) :
    ∀ (l acc : List Str),
      l.foldl (fun found e => if p e then found ++ [e] else found) acc
        = acc ++ l.filter p := by
  intro l
  induction l with
  | nil => intro acc; simp
  | cons e rest ih =>
    intro acc
    by_cases h : p e = true
    · simp [List.foldl_cons, List.filter_cons, h, ih]
    · simp only [Bool.not_eq_true] at h
      simp [List.foldl_cons, List.filter_cons, h, ih]

/-- In a duplicate-free list, a member is counted exactly once. -/
theorem count_one_of_nodup_mem {l : List Str} (h : l.Nodup) {a : Str} (ha : a ∈ l) :
    l.count a = 1 := by
  induction l with
  | nil => cases ha
  | cons b t ih =>
    rw [List.count_cons]
    rcases List.mem_cons.mp ha with rfl | hmem
    · rw [List.count_eq_zero.mpr (List.nodup_cons.mp h).1]
      simp
    · have hne : a ≠ b := by
        rintro rfl
        exact (List.nodup_cons.mp h).1 hmem
      rw [ih (List.nodup_cons.mp h).2 hmem]
      simp [hne]
      exact Ne.symm hne

/-- `scanNumber` produces a positive scale. -/
theorem scanNumber_scale_pos :
    ∀ (s : Str) (num scale : Nat) (r : Str),
      scanNumber s = some (num, scale, r) → 0 < scale := by
  intro s num scale r h
  unfold scanNumber at h
  dsimp only at h
  split at h
  · exact absurd h (by simp)
  · split at h
    · split at h
      · injection h with h1
        injection h1 with _ h2
        injection h2 with h3 _
        omega
      · injection h with h1
        injection h1 with _ h2
        injection h2 with h3 _
        rw [← h3]
        positivity
    · injection h with h1
      injection h1 with _ h2
      injection h2 with h3 _
      omega

/-- `searchSize` produces a positive scale. -/
theorem searchSize_scale_pos :
    ∀ (u : Str → Bool) (s : Str) (num scale : Nat),
      searchSize u s = some (num, scale) → 0 < scale := by
  intro u s
  induction s with
  | nil => intro num scale h; cases h
  | cons c rest ih =>
    intro num scale h
    unfold searchSize at h
    split at h
    · rename_i num' scale' r' hscan
      split at h
      · injection h with h1
        injection h1 with h2 h3
        exact h3 ▸ scanNumber_scale_pos _ _ _ _ hscan
      · exact ih _ _ h
    · exact ih _ _ h

/-- Envelopes with no primary URL, no alternates and a non-MATCH status
satisfy the cross-field invariant. -/
theorem invariant_of_shape (o : MapperOutput) (h1 : o.primary_url = none)
    (h2 : o.alternates = []) (h3 : o.status ≠ .MATCH) : envelopeInvariant o := by
  refine ⟨?_, ?_, fun _ => ⟨h1, h2⟩⟩
  · rw [h1]
    constructor
    · intro h; simp at h
    · intro h; exact absurd h h3
  · intro h; exact absurd h2 h

/-- Every envelope `ParfumoMapper.execute` produces has no primary URL,
no alternates, and a status other than MATCH. -/
theorem parfumo_shape (exclusions : List Str) (text : Str) :
    (parfumoExecute exclusions text).primary_url = none ∧
    (parfumoExecute exclusions text).alternates = [] ∧
    (parfumoExecute exclusions text).status ≠ .MATCH := by
  unfold parfumoExecute parfumoSearchAndMatch
  dsimp only
  split
  · exact ⟨rfl, rfl, by simp⟩
  · split
    · exact ⟨rfl, rfl, by simp⟩
    · exact ⟨rfl, rfl, by simp⟩

/-- ASCII lowercasing is idempotent. -/
theorem toLower_idem (c : Char) : Char.toLower (Char.toLower c) = Char.toLower c := by
  show Char.toLower _ = _
  unfold Char.toLower
  dsimp only
  by_cases h : 65 ≤ c.toNat ∧ c.toNat ≤ 90
  · rw [if_pos h]
    obtain ⟨a, b⟩ := h
    set m := c.toNat with hm
    clear hm
    interval_cases m <;> decide
  · rw [if_neg h, if_neg h]

/-- `re.sub` with empty replacement only removes characters. -/
theorem subAltsGo_sub (alts : List (List Str)) :
    ∀ (s : Str) (prev : Option Char) (k : Nat),
      (subAltsGo alts prev k s).Sublist s := by
  intro s
  induction s with
  | nil => intro prev k; cases k <;> exact List.Sublist.refl _
  | cons c rest ih =>
    intro prev k
    cases k with
    | succ k =>
      exact List.Sublist.trans (ih (some c) k) (List.sublist_cons_self c rest)
    | zero =>
      rcases hm : matchAltsAt prev (c :: rest) alts with _ | ⟨_ | n⟩
      · simpa [subAltsGo, hm] using (ih (some c) 0).cons₂ c
      · simpa [subAltsGo, hm] using (ih (some c) 0).cons₂ c
      · simp only [subAltsGo, hm]
        exact List.Sublist.trans (ih (some c) n) (List.sublist_cons_self c rest)

/-- Noise removal only removes characters. -/
theorem removeNoise_sub (s : Str) : (removeNoise s).Sublist s := by
  unfold removeNoise
  generalize NOISE_TERMS = pats
  induction pats generalizing s with
  | nil => exact List.Sublist.refl s
  | cons p ps ih =>
    exact List.Sublist.trans (ih (subAlts p s)) (subAltsGo_sub p s none 0)

/-- Characters of `squeezeWs` output: either a space it emitted, or a
non-whitespace character of the input. -/
theorem squeezeWs_mem :
    ∀ (s : Str) (b : Bool) (c : Char), c ∈ squeezeWs b s →
      c = ' ' ∨ (c ∈ s ∧ isSpaceChar c = false) := by
  intro s
  induction s with
  | nil => intro b c h; cases h
  | cons d rest ih =>
    intro b c h
    by_cases hd : isSpaceChar d = true
    · cases b with
      | true =>
        simp only [squeezeWs, hd, if_pos] at h
        rcases ih true c h with h' | ⟨hmem, hns⟩
        · exact Or.inl h'
        · exact Or.inr ⟨List.mem_cons_of_mem d hmem, hns⟩
      | false =>
        simp only [squeezeWs, hd, if_pos] at h
        rcases List.mem_cons.mp h with rfl | h'
        · exact Or.inl rfl
        · rcases ih true c h' with h'' | ⟨hmem, hns⟩
          · exact Or.inl h''
          · exact Or.inr ⟨List.mem_cons_of_mem d hmem, hns⟩
    · simp only [Bool.not_eq_true] at hd
      simp only [squeezeWs, hd] at h
      rcases List.mem_cons.mp h with rfl | h'
      · exact Or.inr ⟨List.mem_cons_self c rest, hd⟩
      · rcases ih false c h' with h'' | ⟨hmem, hns⟩
        · exact Or.inl h''
        · exact Or.inr ⟨List.mem_cons_of_mem d hmem, hns⟩

/-- Shape of `squeezeWs` output: no whitespace runs remain, and in
absorbing mode the output starts with a non-whitespace character. -/
theorem squeezeWs_shape :
    ∀ s : Str, noWsRun (squeezeWs false s) ∧ headNotWs (squeezeWs true s) ∧
      noWsRun (squeezeWs true s) := by
  intro s
  induction s with
  | nil =>
    refine ⟨List.chain'_nil, ?_, List.chain'_nil⟩
    intro c h
    cases h
  | cons c rest ih =>
    obtain ⟨ihf, ihh, iht⟩ := ih
    by_cases hc : isSpaceChar c = true
    · refine ⟨?_, ?_, ?_⟩
      · simp only [squeezeWs, hc, if_pos]
        exact List.chain'_cons'.mpr
          ⟨fun y hy => Or.inr (ihh y hy), iht⟩
      · simp only [squeezeWs, hc, if_pos]
        exact ihh
      · simp only [squeezeWs, hc, if_pos]
        exact iht
    · simp only [Bool.not_eq_true] at hc
      have hcons : noWsRun (c :: squeezeWs false rest) :=
        List.chain'_cons'.mpr ⟨fun y _ => Or.inl hc, ihf⟩
      refine ⟨?_, ?_, ?_⟩
      · simpa only [squeezeWs, hc] using hcons
      · simp only [squeezeWs, hc]
        intro d hd
        injection hd with hd
        exact hd ▸ hc
      · simpa only [squeezeWs, hc] using hcons

/-- The head of a `dropWhile` result does not satisfy the predicate. -/
theorem dropWhile_head_false (p : Char → Bool) :
    ∀ (l : List Char) (c : Char) (r : List Char),
      l.dropWhile p = c :: r → p c = false := by
  intro l
  induction l with
  | nil => intro c r h; cases h
  | cons a t ih =>
    intro c r h
    rw [List.dropWhile_cons] at h
    by_cases ha : p a = true
    · rw [if_pos ha] at h
      exact ih c r h
    · rw [if_neg ha] at h
      injection h with h1 _
      simp only [Bool.not_eq_true] at ha
      exact h1 ▸ ha

/-- `dropEndWhile` yields a prefix. -/
theorem dropEndWhile_pre (p : Char → Bool) (s : Str) : dropEndWhile p s <+: s := by
  apply List.reverse_suffix.mp
  rw [dropEndWhile, List.reverse_reverse]
  exact List.dropWhile_suffix p

/-- `strip` yields a contiguous part of its input. -/
theorem strip_middle (s : Str) : strip s <:+: s := by
  obtain ⟨u, hu⟩ := dropEndWhile_pre isSpaceChar (s.dropWhile isSpaceChar)
  obtain ⟨q, hq⟩ := List.dropWhile_suffix (l := s) isSpaceChar
  refine ⟨q, u, ?_⟩
  show q ++ dropEndWhile isSpaceChar (s.dropWhile isSpaceChar) ++ u = s
  rw [List.append_assoc, hu, hq]

/-- `strip` only removes characters. -/
theorem strip_sub (s : Str) : (strip s).Sublist s := (strip_middle s).sublist

/-- A stripped string does not start with whitespace. -/
theorem strip_head (s : Str) : headNotWs (strip s) := by
  intro c hc
  rcases hs : strip s with _ | ⟨d, r⟩
  · rw [hs] at hc; cases hc
  · rw [hs] at hc
    injection hc with hc
    obtain ⟨u, hu⟩ := dropEndWhile_pre isSpaceChar (s.dropWhile isSpaceChar)
    have hss : dropEndWhile isSpaceChar (s.dropWhile isSpaceChar) = d :: r := hs
    rw [hss] at hu
    rw [← hc]
    exact dropWhile_head_false isSpaceChar s d (r ++ u) (by rw [← hu]; rfl)

/-- A stripped string does not end with whitespace. -/
theorem strip_last (s : Str) : lastNotWs (strip s) := by
  intro c hc
  have hc2 : ((s.dropWhile isSpaceChar).reverse.dropWhile isSpaceChar).reverse.getLast?
      = some c := hc
  rw [List.getLast?_reverse] at hc2
  rcases hd : (s.dropWhile isSpaceChar).reverse.dropWhile isSpaceChar with _ | ⟨d, r⟩
  · rw [hd] at hc2; cases hc2
  · rw [hd] at hc2
    injection hc2 with hc2
    rw [← hc2]
    exact dropWhile_head_false isSpaceChar _ d r hd

/-- `dropWhile` is the identity on a string not starting with a
satisfying character. -/
theorem dropWhile_id_of_head (p : Char → Bool) (s : Str)
    (h : ∀ c, s.head? = some c → p c = false) : s.dropWhile p = s := by
  rcases s with _ | ⟨c, r⟩
  · rfl
  · rw [List.dropWhile_cons, if_neg (by simp [h c rfl])]

/-- `dropEndWhile` is the identity on a string not ending with a
satisfying character. -/
theorem dropEndWhile_id_of_last (p : Char → Bool) (s : Str)
    (h : ∀ c, s.getLast? = some c → p c = false) : dropEndWhile p s = s := by
  unfold dropEndWhile
  rw [dropWhile_id_of_head p s.reverse
    (fun c hc => h c (by rw [← List.head?_reverse]; exact hc)),
    List.reverse_reverse]

/-- `strip` is the identity on a string with no boundary whitespace. -/
theorem strip_id (s : Str) (h1 : headNotWs s) (h2 : lastNotWs s) : strip s = s := by
  unfold strip
  rw [dropWhile_id_of_head isSpaceChar s h1, dropEndWhile_id_of_last isSpaceChar s h2]

/-- `squeezeWs` is the identity on a string whose whitespace characters
are all single spaces. -/
theorem squeezeWs_id :
    ∀ s : Str, (∀ c ∈ s, isSpaceChar c = false ∨ c = ' ') → noWsRun s →
      squeezeWs false s = s ∧ (headNotWs s → squeezeWs true s = s) := by
  intro s
  induction s with
  | nil => exact fun _ _ => ⟨rfl, fun _ => rfl⟩
  | cons c rest ih =>
    intro hall hchain
    have hall' : ∀ d ∈ rest, isSpaceChar d = false ∨ d = ' ' :=
      fun d hd => hall d (List.mem_cons_of_mem c hd)
    obtain ⟨hR, hchain'⟩ := List.chain'_cons'.mp hchain
    obtain ⟨ih1, ih2⟩ := ih hall' hchain'
    by_cases hc : isSpaceChar c = true
    · have hcs : c = ' ' := by
        rcases hall c (List.mem_cons_self c rest) with h | h
        · rw [hc] at h; cases h
        · exact h
      have hhead : headNotWs rest := by
        intro d hd
        rcases hR d hd with h | h
        · rw [hc] at h; cases h
        · exact h
      constructor
      · rw [show squeezeWs false (c :: rest) = ' ' :: squeezeWs true rest from by
            simp [squeezeWs, hc], ih2 hhead, hcs]
      · intro hh
        have hfalse := hh c rfl
        rw [hc] at hfalse
        cases hfalse
    · simp only [Bool.not_eq_true] at hc
      constructor
      · simp [squeezeWs, hc, ih1]
      · intro _
        simp [squeezeWs, hc, ih1]

/-- Characters of `collapseWs` output come from the input or are spaces. -/
theorem collapseWs_mem (s : Str) (c : Char) (h : c ∈ collapseWs s) :
    c = ' ' ∨ (c ∈ s ∧ isSpaceChar c = false) :=
  squeezeWs_mem s false c ((strip_sub (squeezeWs false s)).subset h)

/-- All whitespace in `collapseWs` output is a single space. -/
theorem collapseWs_allWs (s : Str) :
    ∀ c ∈ collapseWs s, isSpaceChar c = false ∨ c = ' ' := by
  intro c hc
  rcases collapseWs_mem s c hc with h | ⟨_, h⟩
  · exact Or.inr h
  · exact Or.inl h

/-- `collapseWs` output has no whitespace runs. -/
theorem collapseWs_chain (s : Str) : noWsRun (collapseWs s) :=
  List.Chain'.infix ((squeezeWs_shape s).1) (strip_middle (squeezeWs false s))

/-- `collapseWs` is idempotent. -/
theorem collapseWs_idem (s : Str) : collapseWs (collapseWs s) = collapseWs s := by
  have h1 : squeezeWs false (collapseWs s) = collapseWs s :=
    (squeezeWs_id (collapseWs s) (collapseWs_allWs s) (collapseWs_chain s)).1
  show strip (squeezeWs false (collapseWs s)) = collapseWs s
  rw [h1]
  exact strip_id (collapseWs s) (strip_head (squeezeWs false s))
    (strip_last (squeezeWs false s))

/-- A map that fixes every member is the identity. -/
theorem map_eq_self_of_fixed {f : Char → Char} :
    ∀ l : Str, (∀ a ∈ l, f a = a) → l.map f = l := by
  intro l
  induction l with
  | nil => intro _; rfl
  | cons a t ih =>
    intro h
    rw [List.map_cons, h a (List.mem_cons_self a t),
      ih (fun b hb => h b (List.mem_cons_of_mem a hb))]

/-- Every character of a normalized string is in the allowed class and is
fixed by lowercasing. -/
theorem normalize_chars (x : Str) :
    ∀ c ∈ normalize x, isAllowedChar c = true ∧ Char.toLower c = c := by
  intro c hc
  have hsp : isAllowedChar ' ' = true ∧ Char.toLower ' ' = ' ' := by decide
  rcases collapseWs_mem _ c hc with rfl | ⟨hmem, _⟩
  · exact hsp
  · rcases List.mem_map.mp hmem with ⟨a, ha, hfa⟩
    have halow : Char.toLower a = a := by
      rcases List.mem_map.mp ((removeNoise_sub _).subset ha) with ⟨b, _, hb⟩
      rw [← hb]
      exact toLower_idem b
    by_cases hall : isAllowedChar a = true
    · rw [← hfa, if_pos hall]
      exact ⟨hall, halow⟩
    · rw [← hfa, if_neg hall]
      exact hsp

/-- Lowercasing is the identity on a normalized string. -/
theorem normalize_lower_fix (x : Str) :
    (normalize x).map Char.toLower = normalize x :=
  map_eq_self_of_fixed _ (fun c hc => (normalize_chars x c hc).2)

/-- The special-character replacement is the identity on a normalized
string. -/
theorem normalize_special_fix (x : Str) :
    replaceSpecial (normalize x) = normalize x :=
  map_eq_self_of_fixed _
    (fun c hc => by rw [if_pos (normalize_chars x c hc).1])

/-- Whitespace collapsing is the identity on a normalized string. -/
theorem normalize_collapse_fix (x : Str) :
    collapseWs (normalize x) = normalize x :=
  collapseWs_idem _

/-! ## Claim theorems -/

/-- Claim C1, counterexample: the schema does not enforce the cross-field
invariant at construction time — an envelope with `status = NO_MATCH` and
a present `primary_url` is constructed successfully. -/
theorem c1_invariant_not_enforced_at_construction :
    mkMapperOutput .DESC_TO_PARFUMO_URL {} .NO_MATCH
        (some (wd "https://example.com/x")) none [] [] {} = some badC1 ∧
    (badC1.primary_url).isSome = true ∧ badC1.status ≠ .MATCH := by
  exact ⟨rfl, rfl, by decide⟩

/-- Claim C1 (amended): the schema itself does not enforce the invariant,
but every envelope the router and the mode handlers actually produce
satisfies it: produced envelopes carry no `primary_url` and no
`alternates`, and their status is never MATCH or AMBIGUOUS. -/
theorem c1_produced_envelopes_satisfy_invariant :
    ∀ (m : Mode) (text : Str) (exclusions : List Str),
      envelopeInvariant (route m text) ∧
      envelopeInvariant (parfumoExecute exclusions text) ∧
      envelopeInvariant (fragranticaExecute text) ∧
      envelopeInvariant (crosswalkExecute text) := by
  intro m text exclusions
  have hfrag : envelopeInvariant (fragranticaExecute text) :=
    invariant_of_shape _ rfl rfl (by simp [fragranticaExecute])
  have hcross : envelopeInvariant (crosswalkExecute text) :=
    invariant_of_shape _ rfl rfl (by simp [crosswalkExecute])
  have hparf : ∀ excl, envelopeInvariant (parfumoExecute excl text) := by
    intro excl
    obtain ⟨h1, h2, h3⟩ := parfumo_shape excl text
    exact invariant_of_shape _ h1 h2 h3
  refine ⟨?_, hparf exclusions, hfrag, hcross⟩
  cases m
  · exact (show route .DESC_TO_PARFUMO_URL text
        = parfumoExecute DEFAULT_EXCLUSIONS text from rfl) ▸ hparf _
  · exact (show route .DESC_TO_FRAGRANTICA_URL text
        = fragranticaExecute text from rfl) ▸ hfrag
  · exact (show route .PARFUMO_TO_FRAGRANTICA_URL text
        = crosswalkExecute text from rfl) ▸ hcross

/-- Claim C1 witness: a produced envelope evaluated at a concrete input
satisfies the (conditional parts of the) invariant. -/
theorem c1_produced_envelopes_satisfy_invariant_witness :
    (route .DESC_TO_PARFUMO_URL (wd "Dior decant")).primary_url = none ∧
    (route .DESC_TO_PARFUMO_URL (wd "Dior decant")).alternates = [] :=
  (c1_produced_envelopes_satisfy_invariant .DESC_TO_PARFUMO_URL
    (wd "Dior decant") DEFAULT_EXCLUSIONS).1.2.2 (Or.inl (by decide))

/-- Claim C2: on input "Dior Sauvage EDP 5ml decant" the Parfumo handler
returns status EXCLUDED with the fixed diagnostic note, "decant" among
the excluded terms found, and no search query recorded (the matcher step
is never reached). -/
theorem c2_decant_is_excluded :
    (parfumoExecute DEFAULT_EXCLUSIONS (wd "Dior Sauvage EDP 5ml decant")).status
        = .EXCLUDED ∧
    (parfumoExecute DEFAULT_EXCLUSIONS (wd "Dior Sauvage EDP 5ml decant")).notes
        = [wd "Input contains exclusion terms"] ∧
    wd "decant" ∈ (parfumoExecute DEFAULT_EXCLUSIONS
        (wd "Dior Sauvage EDP 5ml decant")).debug.excluded_terms_found ∧
    (parfumoExecute DEFAULT_EXCLUSIONS
        (wd "Dior Sauvage EDP 5ml decant")).debug.search_queries_used = [] := by
  exact ⟨by decide, by decide, by decide, by decide⟩

/-- Claim C3, counterexample: not every mode handler performs the
exclusion check — the Fragrantica and Crosswalk placeholder handlers
return NO_MATCH (not EXCLUDED) on an input containing the exclusion term
"decant". -/
theorem c3_placeholder_handlers_skip_exclusion_check :
    find_exclusions DEFAULT_EXCLUSIONS (wd "Dior Sauvage 5ml decant")
        = [wd "decant"] ∧
    (fragranticaExecute (wd "Dior Sauvage 5ml decant")).status = .NO_MATCH ∧
    (crosswalkExecute (wd "Dior Sauvage 5ml decant")).status = .NO_MATCH ∧
    MatchStatus.NO_MATCH ≠ MatchStatus.EXCLUDED := by
  exact ⟨by decide, rfl, rfl, by decide⟩

/-- Claim C3 (amended): the Parfumo handler performs the exclusion check
first — whenever `find_exclusions` finds a term it resolves to EXCLUDED
with the diagnostic note and records no search query; the Fragrantica and
Crosswalk placeholder handlers perform no exclusion check and return
NO_MATCH unconditionally. -/
theorem c3_exclusion_short_circuit :
    ∀ (exclusions : List Str) (text : Str),
      (find_exclusions exclusions text ≠ [] →
        (parfumoExecute exclusions text).status = .EXCLUDED ∧
        (parfumoExecute exclusions text).notes
            = [wd "Input contains exclusion terms"] ∧
        (parfumoExecute exclusions text).debug.search_queries_used = []) ∧
      (fragranticaExecute text).status = .NO_MATCH ∧
      (crosswalkExecute text).status = .NO_MATCH := by
  intro exclusions text
  refine ⟨?_, rfl, rfl⟩
  intro h
  have hne : (find_exclusions exclusions text).isEmpty = false := by
    rcases hfe : find_exclusions exclusions text with _ | ⟨a, l⟩
    · exact absurd hfe h
    · rfl
  unfold parfumoExecute
  dsimp only
  rw [hne]
  exact ⟨rfl, rfl, rfl⟩

/-- Claim C3 witness: the short-circuit applied at a concrete excluded
input. -/
theorem c3_exclusion_short_circuit_witness :
    (parfumoExecute DEFAULT_EXCLUSIONS (wd "Tom Ford tester bottle")).status
        = .EXCLUDED ∧
    (parfumoExecute DEFAULT_EXCLUSIONS (wd "Tom Ford tester bottle")).notes
        = [wd "Input contains exclusion terms"] ∧
    (parfumoExecute DEFAULT_EXCLUSIONS
        (wd "Tom Ford tester bottle")).debug.search_queries_used = [] :=
  (c3_exclusion_short_circuit DEFAULT_EXCLUSIONS
    (wd "Tom Ford tester bottle")).1 (by decide)

/-- Claim C4, counterexample: a valid envelope with `status = MATCH` and
`primary_url` set to the empty string serializes to "NOT_FOUND", not to
the stored URL — `to_simple_output` tests Python truthiness, under which
an empty string counts as unset. -/
theorem c4_empty_url_serializes_not_found :
    mkMapperOutput .DESC_TO_PARFUMO_URL {} .MATCH (some []) none [] [] {}
        = some badC4 ∧
    badC4.status = .MATCH ∧ badC4.primary_url = some [] ∧
    (badC4.primary_url).isSome = true ∧
    to_simple_output badC4 = wd "NOT_FOUND" ∧ wd "NOT_FOUND" ≠ ([] : Str) := by
  exact ⟨rfl, rfl, rfl, rfl, by decide, by decide⟩

/-- Claim C4 (amended): `to_simple_output` is a pure, total projection:
the URL alone when `status = MATCH` and `primary_url` is a nonempty
string; the literal "AMBIGUOUS" followed by one URL per line, in stored
order, when `status = AMBIGUOUS` with nonempty alternates; and exactly
"NOT_FOUND" in every other case (NO_MATCH, EXCLUDED, AMBIGUOUS with no
alternates, and MATCH with an absent or empty `primary_url`). -/
theorem c4_to_simple_output_cases :
    ∀ o : MapperOutput,
      (∀ u, o.status = .MATCH → o.primary_url = some u → u ≠ [] →
          to_simple_output o = u) ∧
      (o.status = .AMBIGUOUS → o.alternates ≠ [] →
          to_simple_output o
            = wd "AMBIGUOUS" ++ '\n' :: joinSep '\n' (o.alternates.map (·.url))) ∧
      (o.status = .NO_MATCH ∨ o.status = .EXCLUDED ∨
          (o.status = .AMBIGUOUS ∧ o.alternates = []) ∨
          (o.status = .MATCH ∧ (o.primary_url = none ∨ o.primary_url = some [])) →
          to_simple_output o = wd "NOT_FOUND") := by
  intro o
  refine ⟨?_, ?_, ?_⟩
  · intro u hs hp hne
    simp [to_simple_output, hs, hp, pyTruthyOptStr, List.isEmpty_iff, hne]
  · intro hs hne
    simp [to_simple_output, hs, List.isEmpty_iff, hne]
  · rintro (h | h | ⟨h1, h2⟩ | ⟨h1, h2 | h2⟩) <;>
      simp [to_simple_output, pyTruthyOptStr, *]

/-- Claim C4 witness: the MATCH case applied at a concrete envelope. -/
theorem c4_to_simple_output_cases_witness :
    to_simple_output matchEnvC4 = wd "https://www.parfumo.com/p" :=
  (c4_to_simple_output_cases matchEnvC4).1
    (wd "https://www.parfumo.com/p") rfl rfl (by decide)

/-- Claim C6, counterexample: calling the router with a mode value that
has no registered handler does not return a NO_MATCH envelope — the
unsupported branch constructs `MapperOutput(mode=mode, ...)`, whose mode
field is validated against the `Mode` enum, so the call raises a
validation error. -/
theorem c6_unsupported_mode_raises :
    modeFromString (wd "BOGUS") = none ∧
    routeDyn (wd "BOGUS") (wd "some text")
        = Except.error (wd "ValidationError: mode is not a valid Mode member") := by
  exact ⟨rfl, rfl⟩

/-- Claim C6 (amended): every `Mode` enum value has a registered handler,
so for enum modes the router dispatches and never reaches the unsupported
branch; for a mode value outside the enum the lookup fails and the
NO_MATCH branch's envelope construction fails mode validation, raising
instead of returning. -/
theorem c6_router_dispatch :
    (∀ m : Mode, modeFromString m.value = some m) ∧
    (∀ m : Mode, ((skills.find? (fun p => decide (p.1 = m))).map (·.2)).isSome = true) ∧
    (∀ (m : Mode) (text : Str), routeDyn m.value text = .ok (route m text)) ∧
    (∀ (s text : Str), modeFromString s = none →
        routeDyn s text
          = .error (wd "ValidationError: mode is not a valid Mode member")) := by
  refine ⟨?_, ?_, ?_, ?_⟩
  · intro m; cases m <;> rfl
  · intro m; cases m <;> rfl
  · intro m text; cases m <;> rfl
  · intro s text h
    unfold routeDyn
    rw [h]

/-- Claim C6 witness: the raising branch applied at a concrete
out-of-enum mode string. -/
theorem c6_router_dispatch_witness :
    routeDyn (wd "NOPE") (wd "input")
        = .error (wd "ValidationError: mode is not a valid Mode member") :=
  c6_router_dispatch.2.2.2 (wd "NOPE") (wd "input") (by decide)

/-- Claim C7: `find_exclusions` returns exactly the configured exclusion
terms occurring (case-insensitively) as substrings of the raw input, in
the exclusion list's declared order; with a duplicate-free configuration
each found term appears exactly once, however often it occurs in the
text. -/
theorem c7_find_exclusions_spec :
    ∀ (exclusions : List Str) (text : Str),
      find_exclusions exclusions text
          = exclusions.filter (fun e => containsSub (text.map Char.toLower) e) ∧
      (∀ e, e ∈ find_exclusions exclusions text ↔
          e ∈ exclusions ∧ e <:+: text.map Char.toLower) ∧
      (exclusions.Nodup → ∀ e, e ∈ exclusions → e <:+: text.map Char.toLower →
          (find_exclusions exclusions text).count e = 1) := by
  intro exclusions text
  have h1 : find_exclusions exclusions text
      = exclusions.filter (fun e => containsSub (text.map Char.toLower) e) := by
    unfold find_exclusions
    simpa using foldl_collect_eq_filter _ exclusions []
  refine ⟨h1, ?_, ?_⟩
  · intro e
    rw [h1, List.mem_filter, containsSub_iff]
  · intro hnd e he hsub
    rw [h1]
    exact count_one_of_nodup_mem (hnd.filter _)
      (List.mem_filter.mpr ⟨he, (containsSub_iff _ _).mpr hsub⟩)

/-- Claim C7 witness: a term occurring twice in the text is reported
exactly once. -/
theorem c7_find_exclusions_spec_witness :
    (find_exclusions DEFAULT_EXCLUSIONS
        (wd "Chanel Bleu decant 5ml decant")).count (wd "decant") = 1 :=
  (c7_find_exclusions_spec DEFAULT_EXCLUSIONS
      (wd "Chanel Bleu decant 5ml decant")).2.2 (by decide)
    (wd "decant") (by decide) (by decide)

/-- Claim C8: size extraction tries the milliliter pattern first and only
on failure the ounce pattern with the fixed factor 29.5735; in both cases
the value (an exact rational `num/scale`) is truncated toward zero to a
non-negative integer, which for these non-negative values is the
natural-number quotient shown; and the concrete input "Dior Sauvage EDP
3.4 oz" yields 100 ml. -/
theorem c8_size_extraction :
    (∀ (text : Str) (num scale : Nat),
        searchSize isMlUnit (text.map Char.toLower) = some (num, scale) →
        pyExtractSizeMl text = some (num / scale)) ∧
    (∀ (text : Str) (num scale : Nat),
        searchSize isMlUnit (text.map Char.toLower) = none →
        searchSize isOzUnit (text.map Char.toLower) = some (num, scale) →
        pyExtractSizeMl text = some (num * 295735 / (scale * 10000))) ∧
    (∀ text : Str, searchSize isMlUnit (text.map Char.toLower) = none →
        searchSize isOzUnit (text.map Char.toLower) = none →
        pyExtractSizeMl text = none) ∧
    (∀ (u : Str → Bool) (s : Str) (num scale : Nat),
        searchSize u s = some (num, scale) → 0 < scale) ∧
    (∀ num scale : Nat, 0 < scale →
        (num / scale : Nat) = ⌊(num : ℚ) / (scale : ℚ)⌋₊) ∧
    (∀ num scale : Nat, 0 < scale →
        (num * 295735 / (scale * 10000) : Nat)
          = ⌊((num : ℚ) / (scale : ℚ)) * ((295735 : ℚ) / 10000)⌋₊) ∧
    (extract_components (wd "Dior Sauvage EDP 3.4 oz")).size_ml = some 100 := by
  refine ⟨?_, ?_, ?_, searchSize_scale_pos, ?_, ?_, by decide⟩
  · intro text num scale h
    unfold pyExtractSizeMl
    dsimp only
    rw [h]
  · intro text num scale hml hoz
    unfold pyExtractSizeMl
    dsimp only
    rw [hml, hoz]
  · intro text hml hoz
    unfold pyExtractSizeMl
    dsimp only
    rw [hml, hoz]
  · intro num scale _
    rw [Nat.floor_div_nat ((num : ℚ)) scale, Nat.floor_natCast]
  · intro num scale _
    have : ((num : ℚ) / (scale : ℚ)) * ((295735 : ℚ) / 10000)
        = ((num * 295735 : Nat) : ℚ) / ((scale * 10000 : Nat) : ℚ) := by
      push_cast
      ring
    rw [this, Nat.floor_div_nat, Nat.floor_natCast]

/-- Claim C8 witness: the milliliter branch applied at concrete input
"Flacon 12.5 ml" (12.5 truncated to 12). -/
theorem c8_size_extraction_witness :
    pyExtractSizeMl (wd "Flacon 12.5 ml") = some 12 :=
  c8_size_extraction.1 (wd "Flacon 12.5 ml") 125 10 (by decide)

/-- Claim C9: concentration patterns are tested in the fixed precedence
order EDP, EDT, EDC, Parfum with the first match winning, so the broader
Parfum pattern never overrides an EDP match; concretely, "Dior Sauvage
Eau de Parfum" extracts "EDP". -/
theorem c9_concentration_precedence :
    (∀ t : Str, searchAlts edpAlts none t = true →
        extractConcentration t = some (wd "EDP")) ∧
    (∀ t : Str, searchAlts edpAlts none t = false →
        searchAlts edtAlts none t = true →
        extractConcentration t = some (wd "EDT")) ∧
    (∀ t : Str, searchAlts edpAlts none t = false →
        searchAlts edtAlts none t = false →
        searchAlts edcAlts none t = true →
        extractConcentration t = some (wd "EDC")) ∧
    (∀ t : Str, searchAlts edpAlts none t = false →
        searchAlts edtAlts none t = false →
        searchAlts edcAlts none t = false →
        searchAlts parfumAlts none t = true →
        extractConcentration t = some (wd "Parfum")) ∧
    (∀ t : Str, searchAlts edpAlts none t = true →
        searchAlts parfumAlts none t = true →
        extractConcentration t ≠ some (wd "Parfum")) ∧
    (extract_components (wd "Dior Sauvage Eau de Parfum")).concentration
        = some (wd "EDP") := by
  have h1 : ∀ t : Str, searchAlts edpAlts none t = true →
      extractConcentration t = some (wd "EDP") := by
    intro t h
    unfold extractConcentration CONCENTRATION_PATTERNS
    simp only [List.find?, h]
    rfl
  refine ⟨h1, ?_, ?_, ?_, ?_, by decide⟩
  · intro t hp ht
    unfold extractConcentration CONCENTRATION_PATTERNS
    simp only [List.find?, hp, ht]
    rfl
  · intro t hp ht hc
    unfold extractConcentration CONCENTRATION_PATTERNS
    simp only [List.find?, hp, ht, hc]
    rfl
  · intro t hp ht hc hpa
    unfold extractConcentration CONCENTRATION_PATTERNS
    simp only [List.find?, hp, ht, hc, hpa]
    rfl
  · intro t hp _
    rw [h1 t hp]
    simp [wd]

/-- Claim C9 witness: the EDP-first rule applied at a concrete lowercased
text that matches both the EDP and the Parfum pattern. -/
theorem c9_concentration_precedence_witness :
    extractConcentration (wd "dior sauvage eau de parfum") = some (wd "EDP") :=
  c9_concentration_precedence.1 (wd "dior sauvage eau de parfum") (by decide)

/-- Claim C10: constructing an envelope with more than 5 alternates or a
confidence outside [0,1] (on the envelope or on an alternate) fails
validation at construction time, and successful construction preserves
every field exactly — nothing is clamped or truncated. -/
theorem c10_construction_validation :
    mkAlternateMatch (wd "https://test.com") 2 none = none ∧
    mkAlternateMatch (wd "https://test.com") (-1) none = none ∧
    mkMapperOutput .DESC_TO_PARFUMO_URL {} .AMBIGUOUS none none
        sixAlternates [] {} = none ∧
    mkMapperOutput .DESC_TO_PARFUMO_URL {} .MATCH
        (some (wd "https://test.com")) (some 2) [] [] {} = none ∧
    (∀ (url : Str) (conf : ℚ) (note : Option Str) (a : AlternateMatch),
        mkAlternateMatch url conf note = some a → a = ⟨url, conf, note⟩) ∧
    (∀ (mode : Mode) (insum : InputSummary) (status : MatchStatus)
        (purl : Option Str) (conf : Option ℚ) (alts : List AlternateMatch)
        (notes : List Str) (debug : DebugInfo) (o : MapperOutput),
        mkMapperOutput mode insum status purl conf alts notes debug = some o →
        o = ⟨mode, insum, status, purl, conf, alts, notes, debug⟩) := by
  refine ⟨by decide, by decide, by decide, by decide, ?_, ?_⟩
  · intro url conf note a h
    unfold mkAlternateMatch at h
    split at h
    · exact (Option.some.inj h).symm
    · cases h
  · intro mode insum status purl conf alts notes debug o h
    unfold mkMapperOutput at h
    split at h
    · exact (Option.some.inj h).symm
    · cases h

/-- Claim C10 witness: a successful construction preserves its fields
exactly. -/
theorem c10_construction_validation_witness :
    (⟨wd "https://ok", 1, none⟩ : AlternateMatch) = ⟨wd "https://ok", 1, none⟩ :=
  c10_construction_validation.2.2.2.2.1 (wd "https://ok") 1 none
    ⟨wd "https://ok", 1, none⟩ (by decide)

/-- Claim C5, counterexample: `normalize` is not idempotent.  On
"new sealed in box", the first pass removes "sealed" (noise pattern 7),
which creates the phrase "new in box"; the `new\s+in\s+box|nib` pattern
is listed earlier (pattern 6) and has already been applied in that pass,
so only a second application removes it. -/
theorem c5_normalize_not_idempotent :
    normalize (wd "new sealed in box") = wd "new in box" ∧
    normalize (normalize (wd "new sealed in box")) = [] ∧
    wd "new in box" ≠ ([] : Str) := by
  exact ⟨by decide, by decide, by decide⟩

/-- Claim C5 (amended): `normalize` is idempotent on exactly those inputs
whose normalized form contains no residual noise-term match: the
lowercasing, special-character and whitespace rules always leave no
residual work, and only noise-term removal can create a new match (for an
earlier-listed pattern), which a second application then removes. -/
theorem c5_normalize_conditionally_idempotent :
    ∀ x : Str, removeNoise (normalize x) = normalize x →
      normalize (normalize x) = normalize x := by
  intro x h
  show collapseWs (replaceSpecial (removeNoise ((normalize x).map Char.toLower)))
      = normalize x
  rw [normalize_lower_fix, h, normalize_special_fix, normalize_collapse_fix]

/-- Claim C5 witness: idempotence at a concrete noise-free input. -/
theorem c5_normalize_conditionally_idempotent_witness :
    normalize (normalize (wd "Dior  Sauvage EDP!! 100ml"))
        = normalize (wd "Dior  Sauvage EDP!! 100ml") :=
  c5_normalize_conditionally_idempotent (wd "Dior  Sauvage EDP!! 100ml") (by decide)

end FragMapper
